import Mathlib

/- Verification development for the torobit market-data example programs.

   The repository has two Python source files:
     * src/history.py — reads an LZ4 block-compressed binary capture file
       (FastReader), decodes framed records into tuples, and applies them to an
       order book (DepthSnapshot) and a trade list (TradeProcessor);
     * src/live.py — receives JSON messages over a websocket, dispatches them
       in on_message, and applies MarketDepth payloads to per-symbol
       DepthSnapshot order books.

   Everything below is a shallow embedding of that code: Python dicts become
   association lists that keep insertion order, Python ints become ℤ/ℕ, byte
   buffers become List ℕ (each entry < 256), and Python float results become
   exact rationals via an explicit model of IEEE-754 binary64 rounding. -/

/- ===================================================================
   Python dict model.

   Python dicts (and collections.OrderedDict as used by live.py) keep keys
   unique and remember insertion order; assigning to an existing key replaces
   its value in place, assigning a fresh key appends, and `d.pop(k, None)`
   removes the key if present and is otherwise a no-op.
   =================================================================== -/

section DictModel

variable {α β : Type} [DecidableEq α]

/-- Model of `d[k] = v` on a Python dict: replace in place if the key is
    present, else append at the end. -/
def dinsert (m : List (α × β)) (k : α) (v : β) : List (α × β) :=
  if m.any (fun p => p.1 = k) then
    m.map (fun p => if p.1 = k then (k, v) else p)
  else
    m ++ [(k, v)]

/-- Model of `d.pop(k, None)` on a Python dict: drop the key if present. -/
def dpop (m : List (α × β)) (k : α) : List (α × β) :=
  m.filter (fun p => decide (p.1 ≠ k))

/-- The keys of a Python dict, in insertion order (what `iter(d)`, and hence
    `min(d)` / `max(d)` / `k in d`, range over). -/
def dkeys (m : List (α × β)) : List α :=
  m.map (fun p => p.1)

/-- Model of `d[k]` lookup (first, and only, binding of `k`). -/
def dlookup (m : List (α × β)) (k : α) : Option β :=
  (m.find? (fun p => p.1 = k)).map (fun p => p.2)

/-- Model of `d[k] = v` where `k` may be fresh: used for the per-symbol
    registry `depths` in live.py. -/
def dset (m : List (α × β)) (k : α) (v : β) : List (α × β) :=
  dinsert m k v

end DictModel

/- ===================================================================
   IEEE-754 binary64 value model.

   history.py computes `msg[3] / 10**8` and `msg[4] / 10**8` with Python's
   true division of ints, which produces the binary64 double nearest to the
   exact quotient (ties to even).  We model the *value* of that double as an
   exact rational: round the exact quotient to 53 significant bits.  This is
   faithful for every quotient int64 / 10^8 (all such values are in the
   normal, non-overflowing binary64 range, so no subnormal or infinity
   handling is needed).
   =================================================================== -/

/-- Round a rational to the nearest integer, ties to even — the IEEE-754
    default rounding of a significand. -/
def roundHalfEven (q : ℚ) : ℤ :=
  let f := ⌊q⌋
  let r := q - f
  if r < 1/2 then f
  else if 1/2 < r then f + 1
  else if f % 2 = 0 then f else f + 1

/-- The exact rational value of the IEEE-754 binary64 double nearest to `q`
    (round-nearest, ties-to-even), for `q` in the normal range: the
    significand `|q| / 2 ^ (e - 52)` (with `e = ⌊log₂ |q|⌋`, so it lies in
    `[2^52, 2^53)`) is rounded to an integer and scaled back.  This is the
    value Python's `a / b` on ints returns, as CPython's int true division is
    correctly rounded to binary64. -/
def fl (q : ℚ) : ℚ :=
  if q = 0 then 0
  else
    let a := |q|
    let e := Int.log 2 a
    let m := roundHalfEven (a * 2 ^ ((52 : ℤ) - e))
    (if q < 0 then -1 else 1) * m * 2 ^ (e - (52 : ℤ))

/- ===================================================================
   Byte-level primitives for the historical binary format.

   struct format '=hhq...' means native (little-endian on the capture
   platform) byte order, standard sizes, no alignment padding: 'h' is a
   2-byte signed int, 'i' 4-byte signed, 'q' 8-byte signed, 'B' 1-byte
   unsigned.  A byte buffer is a List ℕ with entries < 256 (the readers
   reduce entries mod 256, which is the identity on real bytes).
   =================================================================== -/

/-- Byte `i` of a buffer (0 past the end; real accesses stay in bounds). -/
def byteAt (data : List ℕ) (i : ℕ) : ℕ :=
  data.getD i 0 % 256

/-- Little-endian unsigned read of `n` bytes at offset `off`: the byte at
    `off` is least significant. -/
def readLE (data : List ℕ) (off n : ℕ) : ℕ :=
  match n with
  | 0 => 0
  | k + 1 => byteAt data off + 256 * readLE data (off + 1) k

/-- Two's-complement reinterpretation of an unsigned `bits`-bit value, as
    struct's signed formats do. -/
def toSigned (bits : ℕ) (v : ℕ) : ℤ :=
  if v < 2 ^ (bits - 1) then (v : ℤ) else (v : ℤ) - 2 ^ bits

/-- struct 'h' at `off`: 2-byte little-endian signed. -/
def readI16 (data : List ℕ) (off : ℕ) : ℤ :=
  toSigned 16 (readLE data off 2)

/-- struct 'i' at `off`: 4-byte little-endian signed. -/
def readI32 (data : List ℕ) (off : ℕ) : ℤ :=
  toSigned 32 (readLE data off 4)

/-- struct 'q' at `off`: 8-byte little-endian signed. -/
def readI64 (data : List ℕ) (off : ℕ) : ℤ :=
  toSigned 64 (readLE data off 8)

/-- struct 'B' at `off`: 1-byte unsigned. -/
def readU8 (data : List ℕ) (off : ℕ) : ℕ :=
  byteAt data off

/- ===================================================================
   Frame Decoder (history.py, FastReader.__next__, frame-decoding part).

   Per frame at the current offset the code unpacks the header '=hhq'
   (type, length, first int64), then re-unpacks from the *same* offset:
     type 0 → '=hhqqqB'   (type, length, ts, price, volume, flags)
     type 1 → '=hhqqqqB'  (type, length, ts, price, volume, extra, flags)
     other  → msg = None
   It then always advances the offset by the declared length header[1], and
   returns the tuple when it is not None — a frame with any other type value
   produces no output at all (the while loop just continues).
   =================================================================== -/

/-- A decoded historical message tuple. `depth` mirrors the 6-tuple unpacked
    with '=hhqqqB', `trade` mirrors the 7-tuple unpacked with '=hhqqqqB'. -/
inductive HMsg where
  | depth (type len ts price volume : ℤ) (flags : ℕ)
  | trade (type len ts price volume extra : ℤ) (flags : ℕ)
deriving DecidableEq, Repr

/-- Decode one frame at byte offset `off` of the decompressed window: the
    optional message produced for this frame, and the new offset
    `off + header[1]` (the declared length is a signed int16, so the new
    offset is an integer).  Embeds the body of FastReader.__next__ after the
    refill check, for frames lying inside the window (Python's struct.unpack_from
    raises on a frame extending past the window; theorems about in-window
    behaviour carry the corresponding bounds as hypotheses). -/
def decodeFrameAt (data : List ℕ) (off : ℕ) : Option HMsg × ℤ :=
  let t := readI16 data off
  let len := readI16 data (off + 2)
  let msg : Option HMsg :=
    if t = 0 then
      some (.depth t len (readI64 data (off + 4)) (readI64 data (off + 12))
        (readI64 data (off + 20)) (readU8 data (off + 28)))
    else if t = 1 then
      some (.trade t len (readI64 data (off + 4)) (readI64 data (off + 12))
        (readI64 data (off + 20)) (readI64 data (off + 28)) (readU8 data (off + 36)))
    else none
  (msg, (off : ℤ) + len)

/-- All messages yielded from one decompressed window, starting at `off`:
    repeated calls of FastReader.__next__ restricted to a single block
    (`offset >= datalen` then ends the stream).  The loop is modelled with
    explicit fuel; one unit is spent per frame, so `data.length + 1` units
    suffice whenever every declared frame length is positive.  A negative
    declared length (which would move the offset backwards) leaves the
    modelled regime and yields `[]`. -/
def scanWindow (data : List ℕ) : ℕ → ℕ → List HMsg
  | _, 0 => []
  | off, fuel + 1 =>
    if off < data.length then
      let step := decodeFrameAt data off
      let rest := if 0 ≤ step.2 then scanWindow data step.2.toNat fuel else []
      match step.1 with
      | some msg => msg :: rest
      | none => rest
    else []

/-- The full message sequence decoded from one window. -/
def windowMessages (data : List ℕ) : List HMsg :=
  scanWindow data 0 (data.length + 1)

/- ===================================================================
   Block Reader (history.py, FastReader.__init__ and the refill branch of
   FastReader.__next__).
   =================================================================== -/

/-- A sequential byte source: the file's bytes and the current position.
    `bread` models `f.read(n)` for `n ≥ 0`: it returns up to `n` bytes and
    advances by however many were returned. -/
structure ByteSrc where
  bytes : List ℕ
  pos : ℕ
deriving DecidableEq, Repr

/-- Model of `f.read(n)` for a nonnegative count: the next `min n remaining`
    bytes, and the advanced source. -/
def bread (s : ByteSrc) (n : ℕ) : List ℕ × ByteSrc :=
  let chunk := (s.bytes.drop s.pos).take n
  (chunk, ⟨s.bytes, s.pos + chunk.length⟩)

/-- Model of `f.read(n)` for an arbitrary signed count, as
    `self.f.read(clen)` is called with the decoded signed int32.  The file
    is opened with `open(fn, 'rb')`, an io.BufferedReader, whose `read`
    accepts `n ≥ 0` (return up to `n` bytes) and `n = -1` (read and return
    everything to EOF), and raises
    `ValueError: read length must be non-negative or -1` for every other
    negative `n` — modelled as `none`. -/
def breadSigned (s : ByteSrc) (n : ℤ) : Option (List ℕ × ByteSrc) :=
  if 0 ≤ n then some (bread s n.toNat)
  else if n = -1 then
    let chunk := s.bytes.drop s.pos
    some (chunk, ⟨s.bytes, s.pos + chunk.length⟩)
  else none

/-- Result of one refill attempt: a normal end of stream (StopIteration), a
    new decompressed window plus the advanced source, or a raised error
    (the ValueError of a read length below -1). -/
inductive RefillResult where
  | eos
  | block (data : List ℕ) (next : ByteSrc)
  | error
deriving DecidableEq, Repr

/-- The refill branch of FastReader.__next__ (`if self.offset >= self.datalen:`):
    read 4 bytes; if fewer than 4 came back or the decoded signed int32 is 0,
    raise StopIteration; otherwise perform `self.f.read(clen)` with the
    signed length (reading to EOF for -1 and raising for smaller values)
    and decompress what it returned with expected output size `ulen`.
    `decompress` stands for the external collaborator
    `lz4.block.decompress` (whose own failure on corrupt input is a
    collaborator concern, per the spec's interface). -/
def refill (decompress : List ℕ → ℤ → List ℕ) (ulen : ℤ) (s : ByteSrc) : RefillResult :=
  let r1 := bread s 4
  if r1.1.length < 4 then .eos
  else
    let clen := toSigned 32 (readLE r1.1 0 4)
    if clen = 0 then .eos
    else
      match breadSigned r1.2 clen with
      | some r2 => .block (decompress r2.1 ulen) r2.2
      | none => .error

/-- The mutable state of a FastReader. -/
structure Reader where
  ulen : ℤ
  src : ByteSrc
  data : List ℕ
  offset : ℤ
  datalen : ℕ
deriving Repr

/-- FastReader.__init__: read the first 4 bytes of the file as the fixed
    uncompressed block length, start with an empty window. -/
def mkReader (bytes : List ℕ) : Reader :=
  let r := bread ⟨bytes, 0⟩ 4
  { ulen := toSigned 32 (readLE r.1 0 4)
    src := r.2
    data := []
    offset := 0
    datalen := 0 }

/-- What one refill does to the Reader as a whole: StopIteration, a raised
    error, or the next state. -/
inductive ReaderStep where
  | stop
  | failed
  | next (r : Reader)

/-- One refill of a Reader, threading its own `ulen` into the decompress
    call, exactly as `self.data = lz4.block.decompress(self.f.read(clen), self.ulen)`
    does; `stop` is StopIteration, `failed` a raised error. -/
def refillR (decompress : List ℕ → ℤ → List ℕ) (r : Reader) : ReaderStep :=
  match refill decompress r.ulen r.src with
  | .eos => .stop
  | .error => .failed
  | .block d s' => .next { r with src := s', data := d, datalen := d.length, offset := 0 }

/- ===================================================================
   Order Book, historical path (history.py, DepthSnapshot).

   Prices and volumes are the Python floats `msg[3] / 10**8` and
   `msg[4] / 10**8`, modelled by `fl` of the exact quotient; dict keys
   compare as those exact values (two binary64 doubles are equal iff their
   exact rational values are equal).
   =================================================================== -/

/-- The historical order book: Python dicts `bids` and `asks` keyed by the
    float price. -/
structure HBook where
  bids : List (ℚ × ℚ)
  asks : List (ℚ × ℚ)
deriving DecidableEq, Repr

/-- The empty book built by `DepthSnapshot.__init__`. -/
def emptyHBook : HBook := ⟨[], []⟩

/-- DepthSnapshot.update (history.py): if `msg[5] & 4` clear both sides;
    select `bids` when `msg[5] & 1` is set, else `asks`; compute the float
    price and volume; upsert when the raw integer volume `msg[4] > 0`, else
    `pop(price, None)`. -/
def HBook.update (b : HBook) (price volume : ℤ) (flags : ℕ) : HBook :=
  let b1 := if flags &&& 4 ≠ 0 then emptyHBook else b
  let p := fl ((price : ℚ) / 10 ^ 8)
  let v := fl ((volume : ℚ) / 10 ^ 8)
  if flags &&& 1 ≠ 0 then
    { b1 with bids := if volume > 0 then dinsert b1.bids p v else dpop b1.bids p }
  else
    { b1 with asks := if volume > 0 then dinsert b1.asks p v else dpop b1.asks p }

/-- Apply a sequence of depth messages `(price, volume, flags)` in order, as
    the `for msg in FastReader(...)` loop does for type-0 messages. -/
def HBook.applyAll (b : HBook) (l : List (ℤ × ℤ × ℕ)) : HBook :=
  l.foldl (fun acc m => acc.update m.1 m.2.1 m.2.2) b

/-- DepthSnapshot.printstate best-bid value: `max(self.bids) if self.bids else None`
    — the maximum over the dict's keys, `none` on an empty dict.  The same
    expression reports the live best bid in live.py's DepthSnapshot.update. -/
def bestBid (m : List (ℚ × ℚ)) : WithBot ℚ :=
  (dkeys m).maximum

/-- DepthSnapshot.printstate best-ask value: `min(self.asks) if self.asks else None`. -/
def bestAsk (m : List (ℚ × ℚ)) : WithTop ℚ :=
  (dkeys m).minimum

/-- TradeProcessor.update (history.py): append
    `(msg[2], msg[3] / 10**8, msg[4] / 10**8)` to the trade list. -/
def TradeProcessor.update (trades : List (ℤ × ℚ × ℚ)) (ts price volume : ℤ) :
    List (ℤ × ℚ × ℚ) :=
  trades ++ [(ts, fl ((price : ℚ) / 10 ^ 8), fl ((volume : ℚ) / 10 ^ 8))]

/- ===================================================================
   Live path (live.py).

   JSON numeric Price/Volume values are modelled as exact rationals: the
   live code stores and compares them unchanged, so nothing below depends
   on their machine representation.  Two models are given, both translated
   from the same lines of live.py:

     * a total model (`LItem`, `MDMsg`, `LBook.update`) of the executions in
       which every expected JSON key is present — the non-raising runs; and
     * an exceptional model (`JItemR`, `MDRaw`, `JMsg`, with an `E` suffix on
       the functions) in which each expected key is an Option and a missing
       key raises KeyError at exactly the point the Python code reads it.
       Since Python mutates the book in place, each `E` function returns the
       state as already mutated when the exception is raised, together with
       a Bool that is true iff an exception escaped.
   =================================================================== -/

/-- One `{"Price": p, "Volume": v}` entry of a Bids/Asks array. -/
structure LItem where
  price : ℚ
  volume : ℚ
deriving DecidableEq, Repr

/-- A parsed MarketDepth payload with all expected fields present. -/
structure MDMsg where
  symbol : String
  isUpdate : Bool
  bidsL : List LItem
  asksL : List LItem
deriving DecidableEq, Repr

/-- The live order book: OrderedDicts `bids` and `asks`. -/
structure LBook where
  bids : List (ℚ × ℚ)
  asks : List (ℚ × ℚ)
deriving DecidableEq, Repr

/-- The empty live book built by `DepthSnapshot.__init__`. -/
def emptyLBook : LBook := ⟨[], []⟩

/-- DepthSnapshot.update_items (live.py): for each entry, upsert
    `items[price] = volume` when `volume > 0`, else `items.pop(price, None)`. -/
def update_items (items : List (ℚ × ℚ)) (msg_side : List LItem) : List (ℚ × ℚ) :=
  msg_side.foldl
    (fun its it => if it.volume > 0 then dinsert its it.price it.volume else dpop its it.price)
    items

/-- DepthSnapshot.update (live.py): when `IsUpdate` is false clear both
    sides once, then apply the Bids entries to `bids` and the Asks entries
    to `asks`. -/
def LBook.update (b : LBook) (md : MDMsg) : LBook :=
  let b1 := if md.isUpdate then b else emptyLBook
  { bids := update_items b1.bids md.bidsL
    asks := update_items b1.asks md.asksL }

/-- Apply a sequence of MarketDepth payloads in arrival order. -/
def LBook.applyAll (b : LBook) (l : List MDMsg) : LBook :=
  l.foldl LBook.update b

/-- DepthSnapshot.print_state (live.py) best-bid/best-ask report: the pair
    `(max(self.bids), min(self.asks))` is produced only under the gate
    `if self.bids and self.asks:`; when either dict is empty the function
    prints 'No valid bids or asks.' and reports no best value for either
    side. -/
def printStateBest (b : LBook) : Option (ℚ × ℚ) :=
  match (dkeys b.bids).maximum, (dkeys b.asks).minimum with
  | WithBot.some x, WithTop.some y => some (x, y)
  | _, _ => none

/- Exceptional model for the message handler. -/

/-- A Bids/Asks entry whose Price or Volume key may be missing. -/
structure JItemR where
  price : Option ℚ
  volume : Option ℚ
deriving DecidableEq, Repr

/-- A MarketDepth JSON object whose expected keys may be missing. -/
structure MDRaw where
  symbol : Option String
  isUpdate : Option Bool
  bids : Option (List JItemR)
  asks : Option (List JItemR)
deriving DecidableEq, Repr

/-- A parsed top-level JSON object as dispatched by on_message's elif chain
    on its top-level key; `other` is any object with none of the recognized
    keys (ignored by the chain). -/
inductive JMsg where
  | md (m : MDRaw)
  | publicTrade
  | symbols
  | other
deriving DecidableEq, Repr

/-- update_items over raw entries: on a missing Price or Volume key the
    KeyError aborts the loop, keeping the entries already applied (the dict
    is mutated in place).  Returns the final items and whether an exception
    was raised. -/
def update_itemsE : List (ℚ × ℚ) → List JItemR → List (ℚ × ℚ) × Bool
  | items, [] => (items, false)
  | items, it :: rest =>
    match it.price with
    | none => (items, true)
    | some p =>
      match it.volume with
      | none => (items, true)
      | some v =>
        update_itemsE (if v > 0 then dinsert items p v else dpop items p) rest

/-- DepthSnapshot.update over a raw payload: reads `IsUpdate` (KeyError
    possible before anything is mutated), clears both sides when it is
    false, then reads and applies `Bids`, then `Asks` — a KeyError after the
    clear leaves the cleared/partially-updated book in place. -/
def LBook.updateE (b : LBook) (md : MDRaw) : LBook × Bool :=
  match md.isUpdate with
  | none => (b, true)
  | some isUpd =>
    let b1 := if isUpd then b else emptyLBook
    match md.bids with
    | none => (b1, true)
    | some bl =>
      let rb := update_itemsE b1.bids bl
      if rb.2 then ({ b1 with bids := rb.1 }, true)
      else
        match md.asks with
        | none => ({ b1 with bids := rb.1 }, true)
        | some al =>
          let ra := update_itemsE b1.asks al
          ({ bids := rb.1, asks := ra.1 }, ra.2)

/-- on_message (live.py) acting on the per-symbol registry `depths`.  The
    input is the result of `json.loads(data)`: `none` when the text is not
    parseable JSON (the parse error propagates out of on_message with no
    state change).  For a MarketDepth object the symbol is read (KeyError
    possible), a fresh DepthSnapshot is registered for an unseen symbol, and
    the snapshot is updated in place; any exception in the update escapes
    on_message with the partially-mutated snapshot still registered.
    Returns the final registry and whether an exception escaped. -/
def on_message (depths : List (String × LBook)) (data : Option JMsg) :
    List (String × LBook) × Bool :=
  match data with
  | none => (depths, true)
  | some m =>
    match m with
    | .md md =>
      match md.symbol with
      | none => (depths, true)
      | some sym =>
        let depths1 :=
          if depths.any (fun p => p.1 = sym) then depths else depths ++ [(sym, emptyLBook)]
        let b := (dlookup depths1 sym).getD emptyLBook
        let r := b.updateE md
        (dset depths1 sym r.1, r.2)
    | .publicTrade => (depths, false)
    | .symbols => (depths, false)
    | .other => (depths, false)

/-- A raw payload in which every expected key is present and every entry is
    fully populated: exactly the payloads on which the exceptional model
    raises nothing. -/
def mdFull (md : MDRaw) : Bool :=
  md.symbol.isSome && md.isUpdate.isSome &&
    (match md.bids with
     | some l => l.all (fun it => it.price.isSome && it.volume.isSome)
     | none => false) &&
    (match md.asks with
     | some l => l.all (fun it => it.price.isSome && it.volume.isSome)
     | none => false)

/- ===================================================================
   Lemmas about the binary64 value model.
   =================================================================== -/

/-- Rounding an integer-valued rational is the identity. -/
theorem roundHalfEven_intCast (n : ℤ) : roundHalfEven (n : ℚ) = n := by
  simp [roundHalfEven]

/-- Round-half-even never decreases past the floor. -/
theorem le_roundHalfEven (q : ℚ) : ⌊q⌋ ≤ roundHalfEven q := by
  unfold roundHalfEven
  dsimp only
  split
  · exact le_rfl
  · split
    · omega
    · split <;> omega

/-- Uniqueness of the binary exponent bracket. -/
theorem int_log_eq_of_bracket (q : ℚ) (e : ℤ) (h0 : 0 < q)
    (h1 : (2 : ℚ) ^ e ≤ q) (h2 : q < 2 ^ (e + 1)) : Int.log 2 q = e := by
  have ha := (Int.zpow_le_iff_le_log (by norm_num) h0).mp h1
  have hb := (Int.lt_zpow_iff_log_lt (by norm_num) h0).mp h2
  exact le_antisymm (Int.lt_add_one_iff.mp hb) ha

/-- Unfolding of `fl` on a positive rational with a known exponent bracket. -/
theorem fl_of_bracket (q : ℚ) (e : ℤ) (h0 : 0 < q)
    (h1 : (2 : ℚ) ^ e ≤ q) (h2 : q < 2 ^ (e + 1)) :
    fl q = roundHalfEven (q * 2 ^ ((52 : ℤ) - e)) * 2 ^ (e - (52 : ℤ)) := by
  have hne : q ≠ 0 := ne_of_gt h0
  have hnl : ¬q < 0 := not_lt.mpr (le_of_lt h0)
  have habs : |q| = q := abs_of_pos h0
  unfold fl
  rw [if_neg hne]
  simp only [habs, int_log_eq_of_bracket q e h0 h1 h2, if_neg hnl, one_mul]

/-- A positive rational that is an exact multiple of its ulp is a binary64
    value, so `fl` fixes it. -/
theorem fl_eq_self_of_ulp_multiple (q : ℚ) (e n : ℤ) (h0 : 0 < q)
    (h1 : (2 : ℚ) ^ e ≤ q) (h2 : q < 2 ^ (e + 1))
    (hn : q * 2 ^ ((52 : ℤ) - e) = (n : ℚ)) : fl q = q := by
  rw [fl_of_bracket q e h0 h1 h2, hn, roundHalfEven_intCast]
  rw [← hn, mul_assoc, ← zpow_add₀ (by norm_num : (2 : ℚ) ≠ 0)]
  norm_num

/-- The model never turns a positive quotient into zero (or a negative
    value): the rounded significand is at least the floor of a quantity
    that is at least 1. -/
theorem fl_pos (q : ℚ) (h0 : 0 < q) : 0 < fl q := by
  set e := Int.log 2 q with he
  have h1 : (2 : ℚ) ^ e ≤ q := Int.zpow_log_le_self (by norm_num) h0
  have h2 : q < 2 ^ (e + 1) := Int.lt_zpow_succ_log_self (by norm_num) q
  rw [fl_of_bracket q e h0 h1 h2]
  have hulp : (0 : ℚ) < 2 ^ (e - (52 : ℤ)) := zpow_pos (by norm_num) _
  have hx : (1 : ℚ) ≤ q * 2 ^ ((52 : ℤ) - e) := by
    have hp : (0 : ℚ) < 2 ^ ((52 : ℤ) - e) := zpow_pos (by norm_num) _
    have : (2 : ℚ) ^ e * 2 ^ ((52 : ℤ) - e) ≤ q * 2 ^ ((52 : ℤ) - e) :=
      mul_le_mul_of_nonneg_right h1 (le_of_lt hp)
    have h252 : (2 : ℚ) ^ e * 2 ^ ((52 : ℤ) - e) = 2 ^ (52 : ℤ) := by
      rw [← zpow_add₀ (by norm_num : (2 : ℚ) ≠ 0)]
      norm_num
    rw [h252] at this
    calc (1 : ℚ) ≤ 2 ^ (52 : ℤ) := by norm_num
    _ ≤ _ := this
  have hfloor : (1 : ℤ) ≤ ⌊q * 2 ^ ((52 : ℤ) - e)⌋ := by
    rw [Int.le_floor]
    exact_mod_cast hx
  have hm : (1 : ℤ) ≤ roundHalfEven (q * 2 ^ ((52 : ℤ) - e)) :=
    le_trans hfloor (le_roundHalfEven _)
  have hmq : (1 : ℚ) ≤ (roundHalfEven (q * 2 ^ ((52 : ℤ) - e)) : ℚ) := by exact_mod_cast hm
  calc (0 : ℚ) < 1 * 2 ^ (e - (52 : ℤ)) := by rw [one_mul]; exact hulp
  _ ≤ _ := mul_le_mul_of_nonneg_right hmq (le_of_lt hulp)

/- Concrete binary64 values used by the round-trip and collision results.
   Each exactly-representable quotient is fixed by `fl`; the quotient
   `(10^17 + 1) / 10^8` is not representable and rounds down to `10^9`. -/

theorem fl_hundred : fl ((10000000000 : ℚ) / 10 ^ 8) = 100 := by
  have hq : ((10000000000 : ℚ) / 10 ^ 8) = 100 := by norm_num
  rw [hq]
  exact fl_eq_self_of_ulp_multiple 100 6 7036874417766400 (by norm_num) (by norm_num)
    (by norm_num) (by norm_num)

theorem fl_two_half : fl ((250000000 : ℚ) / 10 ^ 8) = 5 / 2 := by
  have hq : ((250000000 : ℚ) / 10 ^ 8) = 5 / 2 := by norm_num
  rw [hq]
  exact fl_eq_self_of_ulp_multiple (5 / 2) 1 5629499534213120 (by norm_num) (by norm_num)
    (by norm_num) (by norm_num)

theorem fl_five : fl ((500000000 : ℚ) / 10 ^ 8) = 5 := by
  have hq : ((500000000 : ℚ) / 10 ^ 8) = 5 := by norm_num
  rw [hq]
  exact fl_eq_self_of_ulp_multiple 5 2 5629499534213120 (by norm_num) (by norm_num)
    (by norm_num) (by norm_num)

theorem fl_one : fl ((100000000 : ℚ) / 10 ^ 8) = 1 := by
  have hq : ((100000000 : ℚ) / 10 ^ 8) = 1 := by norm_num
  rw [hq]
  exact fl_eq_self_of_ulp_multiple 1 0 4503599627370496 (by norm_num) (by norm_num)
    (by norm_num) (by norm_num)

theorem fl_billion : fl ((100000000000000000 : ℚ) / 10 ^ 8) = 1000000000 := by
  have hq : ((100000000000000000 : ℚ) / 10 ^ 8) = 1000000000 := by norm_num
  rw [hq]
  exact fl_eq_self_of_ulp_multiple 1000000000 29 8388608000000000 (by norm_num)
    (by norm_num) (by norm_num) (by norm_num)

/-- The quotient `(10^17 + 1) / 10^8 = 10^9 + 10^-8` also rounds to the
    double `10^9`: the next double above `10^9` is `10^9 + 2^-23`, and
    `10^-8 < 2^-24`. -/
theorem fl_billion_plus : fl ((100000000000000001 : ℚ) / 10 ^ 8) = 1000000000 := by
  set q : ℚ := (100000000000000001 : ℚ) / 10 ^ 8 with hq
  have h0 : (0 : ℚ) < q := by rw [hq]; norm_num
  have h1 : (2 : ℚ) ^ (29 : ℤ) ≤ q := by rw [hq]; norm_num
  have h2 : q < 2 ^ ((29 : ℤ) + 1) := by rw [hq]; norm_num
  rw [fl_of_bracket q 29 h0 h1 h2]
  have hx : q * 2 ^ ((52 : ℤ) - 29) = 838860800000000008388608 / 100000000 := by
    rw [hq]; norm_num
  rw [hx]
  have hf : ⌊(838860800000000008388608 / 100000000 : ℚ)⌋ = 8388608000000000 := by
    rw [Int.floor_eq_iff]
    constructor <;> norm_num
  unfold roundHalfEven
  dsimp only
  rw [hf]
  rw [if_pos (by norm_num : (838860800000000008388608 / 100000000 : ℚ) -
    ((8388608000000000 : ℤ) : ℚ) < 1 / 2)]
  norm_num

/- ===================================================================
   Dict lemmas and the strict-positivity invariant.
   =================================================================== -/

/-- Popping an absent key is the identity (`d.pop(k, None)` no-op case). -/
theorem dpop_of_not_mem {α β : Type} [DecidableEq α] (m : List (α × β)) (k : α)
    (h : k ∉ dkeys m) : dpop m k = m := by
  apply List.filter_eq_self.mpr
  intro p hp
  have : p.1 ≠ k := by
    intro hpk
    exact h (hpk ▸ List.mem_map_of_mem (fun x => x.1) hp)
  simpa using this

/-- Every volume stored in a side map is strictly positive. -/
def AllPos (m : List (ℚ × ℚ)) : Prop :=
  ∀ pv ∈ m, 0 < pv.2

theorem AllPos_nil : AllPos [] := by
  intro pv hpv
  cases hpv

theorem AllPos_dinsert (m : List (ℚ × ℚ)) (k v : ℚ) (hm : AllPos m) (hv : 0 < v) :
    AllPos (dinsert m k v) := by
  intro pv hpv
  unfold dinsert at hpv
  split at hpv
  · rcases List.mem_map.mp hpv with ⟨p, hp, hpe⟩
    by_cases hpk : p.1 = k
    · rw [if_pos hpk] at hpe
      rw [← hpe]
      exact hv
    · rw [if_neg hpk] at hpe
      exact hpe ▸ hm p hp
  · rcases List.mem_append.mp hpv with h | h
    · exact hm pv h
    · rcases List.mem_singleton.mp h with rfl
      exact hv

theorem AllPos_dpop (m : List (ℚ × ℚ)) (k : ℚ) (hm : AllPos m) : AllPos (dpop m k) :=
  fun pv hpv => hm pv (List.mem_of_mem_filter hpv)

/-- One historical depth update preserves positivity of both sides. -/
theorem AllPos_HBook_update (b : HBook) (p v : ℤ) (f : ℕ)
    (hb : AllPos b.bids) (ha : AllPos b.asks) :
    AllPos (b.update p v f).bids ∧ AllPos (b.update p v f).asks := by
  have hside : ∀ m : List (ℚ × ℚ), AllPos m →
      AllPos (if v > 0 then dinsert m (fl ((p : ℚ) / 10 ^ 8)) (fl ((v : ℚ) / 10 ^ 8))
              else dpop m (fl ((p : ℚ) / 10 ^ 8))) := by
    intro m hm
    split
    · refine AllPos_dinsert _ _ _ hm (fl_pos _ ?_)
      have hv : (0 : ℚ) < (v : ℚ) := by exact_mod_cast (by assumption : v > 0)
      positivity
    · exact AllPos_dpop _ _ hm
  obtain ⟨bb, ba⟩ := b
  dsimp only at hb ha
  unfold HBook.update
  dsimp only
  by_cases h4 : f &&& 4 ≠ 0
  · rw [if_pos h4]
    by_cases h1 : f &&& 1 ≠ 0
    · rw [if_pos h1]
      exact ⟨hside _ AllPos_nil, AllPos_nil⟩
    · rw [if_neg h1]
      exact ⟨AllPos_nil, hside _ AllPos_nil⟩
  · rw [if_neg h4]
    by_cases h1 : f &&& 1 ≠ 0
    · rw [if_pos h1]
      exact ⟨hside _ hb, ha⟩
    · rw [if_neg h1]
      exact ⟨hb, hside _ ha⟩

/-- update_items (live path) preserves positivity. -/
theorem AllPos_update_items (side : List LItem) :
    ∀ items : List (ℚ × ℚ), AllPos items → AllPos (update_items items side) := by
  induction side with
  | nil => intro items h; exact h
  | cons it rest ih =>
    intro items h
    unfold update_items
    simp only [List.foldl_cons]
    apply ih
    split
    · exact AllPos_dinsert _ _ _ h (by assumption)
    · exact AllPos_dpop _ _ h

/-- One live MarketDepth payload preserves positivity of both sides. -/
theorem AllPos_LBook_update (b : LBook) (md : MDMsg)
    (hb : AllPos b.bids) (ha : AllPos b.asks) :
    AllPos (b.update md).bids ∧ AllPos (b.update md).asks := by
  unfold LBook.update
  have h1 : AllPos (if md.isUpdate then b else emptyLBook).bids ∧
      AllPos (if md.isUpdate then b else emptyLBook).asks := by
    split
    · exact ⟨hb, ha⟩
    · exact ⟨AllPos_nil, AllPos_nil⟩
  exact ⟨AllPos_update_items _ _ h1.1, AllPos_update_items _ _ h1.2⟩

/- ===================================================================
   Concrete test vectors (hand-constructed byte buffers).
   =================================================================== -/

/-- Little-endian encoding of `v` into `n` bytes; used only to build the
    concrete test buffers below. -/
def encLE (n v : ℕ) : List ℕ :=
  (List.range n).map (fun i => v / 256 ^ i % 256)

/-- A type-0 (depth) frame: '=hhqqqB' layout, 29 bytes of payload, with the
    declared length field `len`. -/
def frame0 (len ts price volume flags : ℕ) : List ℕ :=
  encLE 2 0 ++ encLE 2 len ++ encLE 8 ts ++ encLE 8 price ++ encLE 8 volume ++ [flags]

/-- A type-1 (trade) frame: '=hhqqqqB' layout, 37 bytes of payload. -/
def frame1 (len ts price volume extra flags : ℕ) : List ℕ :=
  encLE 2 1 ++ encLE 2 len ++ encLE 8 ts ++ encLE 8 price ++ encLE 8 volume ++
    encLE 8 extra ++ [flags]

/-- A 13-byte frame with the unrecognized type code 7. -/
def unknownFrame : List ℕ :=
  encLE 2 7 ++ encLE 2 13 ++ encLE 8 0 ++ [0]

/-- A window holding one unknown-type frame followed by one type-0 frame. -/
def c1Window : List ℕ :=
  unknownFrame ++ frame0 29 5 10000000000 250000000 1

/-- A window holding two type-0 frames whose price fields are the distinct
    integers 10^17 and 10^17 + 1 (volume 10^8, bid flag set). -/
def c2Window : List ℕ :=
  frame0 29 0 100000000000000000 100000000 1 ++
    frame0 29 0 100000000000000001 100000000 1

/-- A window holding one type-0 and one type-1 frame with exactly
    representable prices/volumes: depth (price 100.0, volume 2.5, bid,
    snapshot clear), trade (price 5.0, volume 1.0). -/
def rtWindow : List ℕ :=
  frame0 29 5 10000000000 250000000 1 ++ frame1 37 6 500000000 100000000 99 0

/- ===================================================================
   Claim theorems.
   =================================================================== -/

/-- C4: applying a `DepthUpdate` with the snapshot bit set (flags bit 2)
    first empties both the bid and the ask map and only then applies the
    update's own price/volume to the side selected by flags bit 0 (set →
    bid, clear → ask); the result is therefore independent of the prior
    book and contains at most that one level. -/
theorem C4_snapshot_clears_before_apply (b : HBook) (p v : ℤ) (f : ℕ)
    (h4 : f &&& 4 ≠ 0) :
    b.update p v f = emptyHBook.update p v f ∧
    (b.update p v f).bids.length + (b.update p v f).asks.length ≤ 1 ∧
    (f &&& 1 ≠ 0 → (b.update p v f).asks = [] ∧
      (b.update p v f).bids =
        if v > 0 then [(fl ((p : ℚ) / 10 ^ 8), fl ((v : ℚ) / 10 ^ 8))] else []) ∧
    (f &&& 1 = 0 → (b.update p v f).bids = [] ∧
      (b.update p v f).asks =
        if v > 0 then [(fl ((p : ℚ) / 10 ^ 8), fl ((v : ℚ) / 10 ^ 8))] else []) := by
  unfold HBook.update
  dsimp only
  by_cases h1 : f &&& 1 ≠ 0
  · by_cases hv : v > 0
    · simp only [if_pos h4, if_pos h1, if_pos hv]
      refine ⟨by trivial, ?_, fun _ => ⟨by trivial, ?_⟩, fun hc => absurd hc h1⟩ <;>
        simp [emptyHBook, dinsert, hv]
    · simp only [if_pos h4, if_pos h1, if_neg hv]
      refine ⟨by trivial, ?_, fun _ => ⟨by trivial, ?_⟩, fun hc => absurd hc h1⟩ <;>
        simp [emptyHBook, dpop, hv]
  · have h1' : f &&& 1 = 0 := not_not.mp h1
    by_cases hv : v > 0
    · simp only [if_pos h4, if_neg h1, if_pos hv]
      refine ⟨by trivial, ?_, fun hc => absurd hc h1, fun _ => ⟨by trivial, ?_⟩⟩ <;>
        simp [emptyHBook, dinsert, hv]
    · simp only [if_pos h4, if_neg h1, if_neg hv]
      refine ⟨by trivial, ?_, fun hc => absurd hc h1, fun _ => ⟨by trivial, ?_⟩⟩ <;>
        simp [emptyHBook, dpop, hv]

/-- Witness for C4 at a concrete input: a populated book hit by a snapshot
    bid update forgets its prior levels entirely. -/
theorem C4_witness :
    ((5 : ℕ) &&& 4 ≠ 0) ∧
    (HBook.mk [(1, 1)] [(2, 2)]).update 10000000000 250000000 5 =
      emptyHBook.update 10000000000 250000000 5 ∧
    ((HBook.mk [(1, 1)] [(2, 2)]).update 10000000000 250000000 5).asks = [] :=
  ⟨by decide,
    (C4_snapshot_clears_before_apply (HBook.mk [(1, 1)] [(2, 2)]) 10000000000 250000000 5
      (by decide)).1,
    ((C4_snapshot_clears_before_apply (HBook.mk [(1, 1)] [(2, 2)]) 10000000000 250000000 5
      (by decide)).2.2.1 (by decide)).1⟩

/-- C5: starting from the empty book, every price present in either side
    map has strictly positive stored volume; this holds after every
    operation (the statement quantifies over all update sequences, hence
    over every prefix of any given sequence), on the historical and the
    live path alike.  A level with volume ≤ 0 is never present. -/
theorem C5_volumes_strictly_positive :
    (∀ l : List (ℤ × ℤ × ℕ),
      AllPos (HBook.applyAll emptyHBook l).bids ∧
      AllPos (HBook.applyAll emptyHBook l).asks) ∧
    (∀ ms : List MDMsg,
      AllPos (LBook.applyAll emptyLBook ms).bids ∧
      AllPos (LBook.applyAll emptyLBook ms).asks) := by
  constructor
  · have key : ∀ (l : List (ℤ × ℤ × ℕ)) (b : HBook),
        AllPos b.bids → AllPos b.asks →
        AllPos (HBook.applyAll b l).bids ∧ AllPos (HBook.applyAll b l).asks := by
      intro l
      induction l with
      | nil => intro b hb ha; exact ⟨hb, ha⟩
      | cons m rest ih =>
        intro b hb ha
        have h := AllPos_HBook_update b m.1 m.2.1 m.2.2 hb ha
        exact ih _ h.1 h.2
    intro l
    exact key l emptyHBook AllPos_nil AllPos_nil
  · have key : ∀ (ms : List MDMsg) (b : LBook),
        AllPos b.bids → AllPos b.asks →
        AllPos (LBook.applyAll b ms).bids ∧ AllPos (LBook.applyAll b ms).asks := by
      intro ms
      induction ms with
      | nil => intro b hb ha; exact ⟨hb, ha⟩
      | cons m rest ih =>
        intro b hb ha
        have h := AllPos_LBook_update b m hb ha
        exact ih _ h.1 h.2
    intro ms
    exact key ms emptyLBook AllPos_nil AllPos_nil

/-- Witness for C5: the volume stored by a concrete bid update is strictly
    positive. -/
theorem C5_witness : 0 < fl (((250000000 : ℤ) : ℚ) / 10 ^ 8) := by
  have h := C5_volumes_strictly_positive.1 [(10000000000, 250000000, 1)]
  refine h.1 (fl (((10000000000 : ℤ) : ℚ) / 10 ^ 8), fl (((250000000 : ℤ) : ℚ) / 10 ^ 8)) ?_
  simp [HBook.applyAll, HBook.update, emptyHBook, dinsert]

/-- C6: a non-snapshot DepthUpdate with volume == 0 whose price is not in
    the selected side's map leaves that map (indeed the whole book)
    unchanged and raises no error, on both paths. -/
theorem C6_zero_volume_absent_price_noop :
    (∀ (b : HBook) (p : ℤ) (f : ℕ), f &&& 4 = 0 →
      (f &&& 1 ≠ 0 → fl ((p : ℚ) / 10 ^ 8) ∉ dkeys b.bids → b.update p 0 f = b) ∧
      (f &&& 1 = 0 → fl ((p : ℚ) / 10 ^ 8) ∉ dkeys b.asks → b.update p 0 f = b)) ∧
    (∀ (items : List (ℚ × ℚ)) (pr : ℚ), pr ∉ dkeys items →
      update_items items [⟨pr, 0⟩] = items) ∧
    (∀ (b : LBook) (sym : String) (pr : ℚ), pr ∉ dkeys b.bids →
      LBook.update b ⟨sym, true, [⟨pr, 0⟩], []⟩ = b) := by
  have hitems : ∀ (items : List (ℚ × ℚ)) (pr : ℚ), pr ∉ dkeys items →
      update_items items [⟨pr, 0⟩] = items := by
    intro items pr hmem
    unfold update_items
    simp only [List.foldl_cons, List.foldl_nil]
    rw [if_neg (by norm_num : ¬((0 : ℚ) > 0))]
    exact dpop_of_not_mem items pr hmem
  refine ⟨?_, hitems, ?_⟩
  · intro b p f h4
    have hn4 : ¬(f &&& 4 ≠ 0) := fun hne => hne h4
    constructor
    · intro h1 hmem
      unfold HBook.update
      dsimp only
      rw [if_pos h1, if_neg hn4, if_neg (by norm_num : ¬((0 : ℤ) > 0)),
        dpop_of_not_mem _ _ hmem]
    · intro h1 hmem
      have hn1 : ¬(f &&& 1 ≠ 0) := fun hne => hne h1
      unfold HBook.update
      dsimp only
      rw [if_neg hn1, if_neg hn4, if_neg (by norm_num : ¬((0 : ℤ) > 0)),
        dpop_of_not_mem _ _ hmem]
  · intro b sym pr hmem
    unfold LBook.update
    dsimp only
    rw [if_pos rfl]
    rw [hitems b.bids pr hmem]
    rfl

/-- Witness for C6 at concrete inputs: a zero-volume bid update at an
    absent price, historical and live. -/
theorem C6_witness :
    ((1 : ℕ) &&& 4 = 0) ∧
    (HBook.mk [] [(7, 1)]).update 999 0 1 = HBook.mk [] [(7, 1)] ∧
    update_items [(10, 1)] [⟨11, 0⟩] = [(10, 1)] :=
  ⟨by decide,
    (C6_zero_volume_absent_price_noop.1 (HBook.mk [] [(7, 1)]) 999 1 (by decide)).1
      (by decide) (by simp [dkeys]),
    C6_zero_volume_absent_price_noop.2.1 [(10, 1)] 11 (by decide)⟩

/-- C10: a non-snapshot DepthUpdate modifies at most the side selected by
    its side flag: with the bid side selected the ask map is untouched and
    conversely, on the historical path (flags bit 0) and the live path (a
    single Bids or Asks entry of an IsUpdate payload). -/
theorem C10_update_touches_only_selected_side :
    (∀ (b : HBook) (p v : ℤ) (f : ℕ), f &&& 4 = 0 →
      (f &&& 1 ≠ 0 → (b.update p v f).asks = b.asks) ∧
      (f &&& 1 = 0 → (b.update p v f).bids = b.bids)) ∧
    (∀ (b : LBook) (sym : String) (it : LItem),
      (LBook.update b ⟨sym, true, [it], []⟩).asks = b.asks ∧
      (LBook.update b ⟨sym, true, [], [it]⟩).bids = b.bids) := by
  constructor
  · intro b p v f h4
    have hn4 : ¬(f &&& 4 ≠ 0) := fun hne => hne h4
    constructor
    · intro h1
      unfold HBook.update
      dsimp only
      rw [if_pos h1, if_neg hn4]
    · intro h1
      have hn1 : ¬(f &&& 1 ≠ 0) := fun hne => hne h1
      unfold HBook.update
      dsimp only
      rw [if_neg hn1, if_neg hn4]
  · intro b sym it
    constructor
    · unfold LBook.update
      dsimp only
      rw [if_pos rfl]
      rfl
    · unfold LBook.update
      dsimp only
      rw [if_pos rfl]
      rfl

/-- Witness for C10 at concrete inputs: a bid update leaves the ask side
    untouched on both paths. -/
theorem C10_witness :
    ((1 : ℕ) &&& 4 = 0) ∧
    ((HBook.mk [] [(7, 1)]).update 999 5 1).asks = [(7, 1)] ∧
    (LBook.update (LBook.mk [] [(7, 1)]) ⟨"X", true, [⟨3, 4⟩], []⟩).asks = [(7, 1)] :=
  ⟨by decide,
    (C10_update_touches_only_selected_side.1 (HBook.mk [] [(7, 1)]) 999 5 1 (by decide)).1
      (by decide),
    (C10_update_touches_only_selected_side.2 (LBook.mk [] [(7, 1)]) "X" ⟨3, 4⟩).1⟩

/-- C9: a live MarketDepth payload with IsUpdate == false clears both sides
    exactly once for the whole payload, before any entry is applied: the
    result never depends on the prior book and equals the payload's entries
    applied in order to an empty book.  Concretely, the payload
    Symbol X, IsUpdate false, Bids [(10,1)], Asks [(11,2)] on a stale book
    yields exactly bid 10 ↦ 1 and ask 11 ↦ 2; and a payload with two bid
    entries keeps both (a clear-per-level implementation would keep only
    the last). -/
theorem C9_full_snapshot_clears_once (b : LBook) (md : MDMsg)
    (hu : md.isUpdate = false) :
    LBook.update b md = ⟨update_items [] md.bidsL, update_items [] md.asksL⟩ ∧
    LBook.update (LBook.mk [(99, 1), (98, 2)] [(101, 5)])
      ⟨"X", false, [⟨10, 1⟩], [⟨11, 2⟩]⟩ = ⟨[(10, 1)], [(11, 2)]⟩ ∧
    LBook.update (LBook.mk [(99, 1)] [(101, 5)])
      ⟨"X", false, [⟨10, 1⟩, ⟨9, 2⟩], []⟩ = ⟨[(10, 1), (9, 2)], []⟩ := by
  refine ⟨?_, by decide, by decide⟩
  unfold LBook.update
  dsimp only
  rw [hu, if_neg (by simp : ¬(false = true))]
  rfl

/-- Witness for C9: the spec's scenario payload applied to a concrete stale
    book. -/
theorem C9_witness :
    LBook.update (LBook.mk [(1, 1)] [(2, 2)]) ⟨"Y", false, [⟨10, 1⟩], [⟨11, 2⟩]⟩ =
      ⟨update_items [] [⟨10, 1⟩], update_items [] [⟨11, 2⟩]⟩ :=
  (C9_full_snapshot_clears_once (LBook.mk [(1, 1)] [(2, 2)])
    ⟨"Y", false, [⟨10, 1⟩], [⟨11, 2⟩]⟩ rfl).1

/-- C7 fails as stated: in live.py's print_state (the cited lines 46–53)
    the best bid/ask report is gated on BOTH maps being nonempty, so with an
    empty bid map and a nonempty ask map it reports no best-ask value even
    though the ask map's minimum key exists — "returns no value exactly when
    the respective map is empty" is violated for the ask side. -/
theorem C7_counterexample :
    printStateBest ⟨[], [(1, 1)]⟩ = none ∧
    (LBook.mk [] [(1, 1)]).asks ≠ [] ∧
    (dkeys (LBook.mk [] [(1, 1)]).asks).minimum = WithTop.some 1 := by decide

/-- C7 amended: the per-side best queries — `max(bids) if bids else None` /
    `min(asks) if asks else None`, as computed by history.py's printstate
    and by live.py's update report — return exactly the maximum key of the
    bid map and the minimum key of the ask map, and `none` exactly when the
    respective map is empty; live.py's print_state, however, reports the
    best-bid/best-ask pair only when both maps are nonempty (and then it is
    exactly that maximum and minimum). -/
theorem C7_best_bid_ask_queries (m : List (ℚ × ℚ)) (b : LBook) :
    (bestBid m = ⊥ ↔ m = []) ∧
    (bestAsk m = ⊤ ↔ m = []) ∧
    (∀ x : ℚ, bestBid m = (x : WithBot ℚ) ↔ x ∈ dkeys m ∧ ∀ y ∈ dkeys m, y ≤ x) ∧
    (∀ x : ℚ, bestAsk m = (x : WithTop ℚ) ↔ x ∈ dkeys m ∧ ∀ y ∈ dkeys m, x ≤ y) ∧
    (printStateBest b = none ↔ b.bids = [] ∨ b.asks = []) ∧
    (∀ x y : ℚ, printStateBest b = some (x, y) ↔
      bestBid b.bids = (x : WithBot ℚ) ∧ bestAsk b.asks = (y : WithTop ℚ)) := by
  have hkeys : ∀ mm : List (ℚ × ℚ), dkeys mm = [] ↔ mm = [] := fun mm => by simp [dkeys]
  refine ⟨?_, ?_, ?_, ?_, ?_, ?_⟩
  · unfold bestBid
    rw [List.maximum_eq_bot, hkeys]
  · unfold bestAsk
    rw [List.minimum_eq_top, hkeys]
  · intro x
    unfold bestBid
    exact List.maximum_eq_coe_iff
  · intro x
    unfold bestAsk
    exact List.minimum_eq_coe_iff
  · unfold printStateBest
    cases hmax : (dkeys b.bids).maximum with
    | bot =>
      have hb : b.bids = [] := (hkeys _).mp (List.maximum_eq_bot.mp hmax)
      simp [hb]
    | coe x =>
      cases hmin : (dkeys b.asks).minimum with
      | top =>
        have ha : b.asks = [] := (hkeys _).mp (List.minimum_eq_top.mp hmin)
        simp [ha]
      | coe y =>
        have hb : b.bids ≠ [] := by
          intro h
          rw [h] at hmax
          simp [dkeys] at hmax
        have ha : b.asks ≠ [] := by
          intro h
          rw [h] at hmin
          simp [dkeys] at hmin
        simp [hb, ha]
  · intro x y
    unfold printStateBest bestBid bestAsk
    cases hmax : (dkeys b.bids).maximum with
    | bot => simp [hmax]
    | coe u =>
      cases hmin : (dkeys b.asks).minimum with
      | top => simp
      | coe v =>
        constructor
        · intro h
          simp only [Option.some.injEq, Prod.mk.injEq] at h
          exact ⟨by rw [h.1], by rw [h.2]⟩
        · intro ⟨h1, h2⟩
          simp only [Option.some.injEq, Prod.mk.injEq]
          exact ⟨by exact_mod_cast h1, by exact_mod_cast h2⟩

/-- Witness for C7 at a concrete book: the best bid of a one-level bid map
    is its key. -/
theorem C7_witness : bestBid [((3 : ℚ), (4 : ℚ))] = ((3 : ℚ) : WithBot ℚ) :=
  ((C7_best_bid_ask_queries [((3 : ℚ), (4 : ℚ))] ⟨[], []⟩).2.2.1 3).mpr (by decide)

/- Auxiliary byte-reading lemmas for the Block Reader. -/

theorem byteAt_take (L : List ℕ) (n i : ℕ) (h : i < n) :
    byteAt (L.take n) i = byteAt L i := by
  unfold byteAt
  rw [List.getD_eq_getElem?_getD, List.getD_eq_getElem?_getD, List.getElem?_take, if_pos h]

theorem readLE_agree (d1 d2 : List ℕ) (off n : ℕ)
    (h : ∀ i, i < n → byteAt d1 (off + i) = byteAt d2 (off + i)) :
    readLE d1 off n = readLE d2 off n := by
  induction n generalizing off with
  | zero => rfl
  | succ k ih =>
    unfold readLE
    have h0 := h 0 (by omega)
    rw [Nat.add_zero] at h0
    rw [h0, ih (off + 1) (fun i hi => by
      have hh := h (i + 1) (by omega)
      have e : off + (i + 1) = off + 1 + i := by omega
      rwa [e] at hh)]

theorem readLE_take (L : List ℕ) (n : ℕ) : readLE (L.take n) 0 n = readLE L 0 n :=
  readLE_agree _ _ 0 n (fun i hi => by
    have := byteAt_take L n i hi
    simpa using this)

/-- C8: the Block Reader ends the message stream normally (StopIteration,
    not an error) exactly when the 4-byte compressed-length read returns
    fewer than 4 bytes or decodes to C == 0.  Otherwise, for C > 0 it
    consumes exactly the 4 length bytes plus C block bytes (exactly C when
    that many are available) and decompresses those C bytes against the
    fixed uncompressed length; a negative C is never a normal termination
    either — C = -1 makes the read return everything to EOF (which is then
    passed to decompress) and C < -1 raises ValueError.  The uncompressed
    length is read once at stream start by the constructor and every refill
    passes the reader's own unchanged `ulen` to decompress. -/
theorem C8_block_reader_end_of_stream :
    (∀ (decompress : List ℕ → ℤ → List ℕ) (ulen : ℤ) (s : ByteSrc),
      refill decompress ulen s = .eos ↔
        ((s.bytes.drop s.pos).length < 4 ∨
          toSigned 32 (readLE (s.bytes.drop s.pos) 0 4) = 0)) ∧
    (∀ (decompress : List ℕ → ℤ → List ℕ) (ulen : ℤ) (s : ByteSrc),
      4 ≤ (s.bytes.drop s.pos).length →
      ∀ clen : ℤ, clen = toSigned 32 (readLE (s.bytes.drop s.pos) 0 4) → 0 < clen →
      refill decompress ulen s =
        .block (decompress (((s.bytes.drop s.pos).drop 4).take clen.toNat) ulen)
          ⟨s.bytes, s.pos + 4 + (((s.bytes.drop s.pos).drop 4).take clen.toNat).length⟩ ∧
      (clen.toNat + 4 ≤ (s.bytes.drop s.pos).length →
        (((s.bytes.drop s.pos).drop 4).take clen.toNat).length = clen.toNat)) ∧
    (∀ (decompress : List ℕ → ℤ → List ℕ) (ulen : ℤ) (s : ByteSrc),
      4 ≤ (s.bytes.drop s.pos).length →
      toSigned 32 (readLE (s.bytes.drop s.pos) 0 4) = -1 →
      refill decompress ulen s =
        .block (decompress ((s.bytes.drop s.pos).drop 4) ulen)
          ⟨s.bytes, s.pos + 4 + ((s.bytes.drop s.pos).drop 4).length⟩) ∧
    (∀ (decompress : List ℕ → ℤ → List ℕ) (ulen : ℤ) (s : ByteSrc),
      4 ≤ (s.bytes.drop s.pos).length →
      toSigned 32 (readLE (s.bytes.drop s.pos) 0 4) < -1 →
      refill decompress ulen s = .error) ∧
    (∀ (decompress : List ℕ → ℤ → List ℕ) (r r' : Reader),
      refillR decompress r = .next r' → r'.ulen = r.ulen) ∧
    (∀ bytes : List ℕ, (mkReader bytes).ulen = toSigned 32 (readLE bytes 0 4)) := by
  refine ⟨?_, ?_, ?_, ?_, ?_, ?_⟩
  · intro decompress ulen s
    unfold refill bread
    dsimp only
    by_cases hlen : ((s.bytes.drop s.pos).take 4).length < 4
    · rw [if_pos hlen]
      rw [List.length_take] at hlen
      exact iff_of_true rfl (Or.inl (by omega))
    · rw [if_neg hlen]
      have h4 : 4 ≤ (s.bytes.drop s.pos).length := by
        rw [List.length_take] at hlen
        omega
      rw [readLE_take]
      by_cases hc : toSigned 32 (readLE (s.bytes.drop s.pos) 0 4) = 0
      · rw [if_pos hc]
        exact iff_of_true rfl (Or.inr hc)
      · rw [if_neg hc]
        refine iff_of_false (fun h => ?_) ?_
        · split at h <;> exact RefillResult.noConfusion h
        · rintro (h | h)
          · omega
          · exact hc h
  · intro decompress ulen s h4 clen hcdef hcpos
    constructor
    · unfold refill bread
      dsimp only
      have hlen4 : ((s.bytes.drop s.pos).take 4).length = 4 := by
        rw [List.length_take]
        omega
      rw [hlen4]
      rw [if_neg (by norm_num : ¬(4 < 4))]
      rw [readLE_take, ← hcdef]
      rw [if_neg (by omega : ¬clen = 0)]
      unfold breadSigned
      rw [if_pos (by omega : (0 : ℤ) ≤ clen)]
      dsimp only
      unfold bread
      dsimp only
      have hdd : s.bytes.drop (s.pos + 4) = (s.bytes.drop s.pos).drop 4 := by
        rw [List.drop_drop, Nat.add_comm]
      rw [hdd]
    · intro havail
      rw [List.length_take, List.length_drop]
      omega
  · intro decompress ulen s h4 hm1
    unfold refill bread
    dsimp only
    have hlen4 : ((s.bytes.drop s.pos).take 4).length = 4 := by
      rw [List.length_take]
      omega
    rw [hlen4]
    rw [if_neg (by norm_num : ¬(4 < 4))]
    rw [readLE_take, hm1]
    rw [if_neg (by norm_num : ¬(-1 : ℤ) = 0)]
    unfold breadSigned
    rw [if_neg (by norm_num : ¬(0 : ℤ) ≤ -1), if_pos rfl]
    dsimp only
    have hdd : s.bytes.drop (s.pos + 4) = (s.bytes.drop s.pos).drop 4 := by
      rw [List.drop_drop, Nat.add_comm]
    rw [hdd]
  · intro decompress ulen s h4 hlt
    unfold refill bread
    dsimp only
    have hlen4 : ((s.bytes.drop s.pos).take 4).length = 4 := by
      rw [List.length_take]
      omega
    rw [hlen4]
    rw [if_neg (by norm_num : ¬(4 < 4))]
    rw [readLE_take]
    rw [if_neg (by omega : ¬toSigned 32 (readLE (s.bytes.drop s.pos) 0 4) = 0)]
    unfold breadSigned
    rw [if_neg (by omega : ¬(0 : ℤ) ≤ toSigned 32 (readLE (s.bytes.drop s.pos) 0 4)),
      if_neg (by omega : ¬toSigned 32 (readLE (s.bytes.drop s.pos) 0 4) = -1)]
  · intro decompress r r' h
    unfold refillR at h
    cases hr : refill decompress r.ulen r.src with
    | eos => rw [hr] at h; cases h
    | error => rw [hr] at h; cases h
    | block d s' =>
      rw [hr] at h
      cases h
      rfl
  · intro bytes
    unfold mkReader bread
    dsimp only
    rw [List.drop_zero, readLE_take]

/-- Witness for C8 at concrete streams: header U = 2, then a block with
    C = 3 whose refill consumes exactly 3 block bytes; a following refill
    hits C == 0 and stops; a stream whose length field decodes to -1 makes
    the read return everything to EOF; and one decoding to -2 raises. -/
theorem C8_witness :
    (4 ≤ (([2, 0, 0, 0, 3, 0, 0, 0, 7, 8, 9, 0, 0, 0, 0] : List ℕ).drop 4).length) ∧
    ((0 : ℤ) < 3) ∧
    refill (fun bs _ => bs) 2 ⟨[2, 0, 0, 0, 3, 0, 0, 0, 7, 8, 9, 0, 0, 0, 0], 4⟩ =
      .block [7, 8, 9] ⟨[2, 0, 0, 0, 3, 0, 0, 0, 7, 8, 9, 0, 0, 0, 0], 11⟩ ∧
    (refill (fun bs _ => bs) 2 ⟨[2, 0, 0, 0, 3, 0, 0, 0, 7, 8, 9, 0, 0, 0, 0], 11⟩ = .eos ↔
      ((([2, 0, 0, 0, 3, 0, 0, 0, 7, 8, 9, 0, 0, 0, 0] : List ℕ).drop 11).length < 4 ∨
        toSigned 32 (readLE (([2, 0, 0, 0, 3, 0, 0, 0, 7, 8, 9, 0, 0, 0, 0] : List ℕ).drop 11) 0 4) = 0)) ∧
    refill (fun bs _ => bs) 2 ⟨[2, 0, 0, 0, 255, 255, 255, 255, 9], 4⟩ =
      .block [9] ⟨[2, 0, 0, 0, 255, 255, 255, 255, 9], 9⟩ ∧
    refill (fun bs _ => bs) 2 ⟨[2, 0, 0, 0, 254, 255, 255, 255], 4⟩ = .error ∧
    (mkReader [2, 0, 0, 0, 3, 0, 0, 0, 7, 8, 9, 0, 0, 0, 0]).ulen = 2 := by
  refine ⟨by decide, by decide, ?_, ?_, ?_, ?_, ?_⟩
  · have h := (C8_block_reader_end_of_stream.2.1 (fun bs _ => bs) 2
      ⟨[2, 0, 0, 0, 3, 0, 0, 0, 7, 8, 9, 0, 0, 0, 0], 4⟩ (by decide) 3 (by decide)
      (by decide)).1
    rw [h]
    decide
  · exact C8_block_reader_end_of_stream.1 (fun bs _ => bs) 2
      ⟨[2, 0, 0, 0, 3, 0, 0, 0, 7, 8, 9, 0, 0, 0, 0], 11⟩
  · have h := C8_block_reader_end_of_stream.2.2.1 (fun bs _ => bs) 2
      ⟨[2, 0, 0, 0, 255, 255, 255, 255, 9], 4⟩ (by decide) (by decide)
    rw [h]
    decide
  · exact C8_block_reader_end_of_stream.2.2.2.1 (fun bs _ => bs) 2
      ⟨[2, 0, 0, 0, 254, 255, 255, 255], 4⟩ (by decide) (by decide)
  · rw [C8_block_reader_end_of_stream.2.2.2.2.2 [2, 0, 0, 0, 3, 0, 0, 0, 7, 8, 9, 0, 0, 0, 0]]
    decide

/-- C1 fails as stated: the window below holds an unknown-type frame
    (type 7, declared length 13) followed by a type-0 frame, yet the decoded
    output is a single message — the type-0 tuple.  No message of any kind
    is yielded for the unknown frame (there is no Unknown variant in the
    code's output at all): the frame is silently dropped, although the
    offset does advance by its declared length (13). -/
theorem C1_counterexample :
    readI16 c1Window 0 = 7 ∧
    decodeFrameAt c1Window 0 = (none, 13) ∧
    windowMessages c1Window = [.depth 0 29 5 10000000000 250000000 1] := by decide

/-- C1 amended: for every frame whose type field is neither 0 nor 1, the
    decoder advances the window offset by exactly the frame's declared
    length field and yields no message for that frame — it silently skips
    it (raising nothing) and continues scanning at the next frame. -/
theorem C1_unknown_frame_skipped (data : List ℕ) (off fuel : ℕ)
    (ht0 : readI16 data off ≠ 0) (ht1 : readI16 data off ≠ 1) :
    decodeFrameAt data off = (none, (off : ℤ) + readI16 data (off + 2)) ∧
    (off < data.length → 0 ≤ (off : ℤ) + readI16 data (off + 2) →
      scanWindow data off (fuel + 1) =
        scanWindow data ((off : ℤ) + readI16 data (off + 2)).toNat fuel) := by
  have hdec : decodeFrameAt data off = (none, (off : ℤ) + readI16 data (off + 2)) := by
    unfold decodeFrameAt
    dsimp only
    rw [if_neg ht0, if_neg ht1]
  refine ⟨hdec, ?_⟩
  intro hb hnn
  rw [scanWindow]
  simp only [hdec, if_pos hb, if_pos hnn]

/-- Witness for C1 at the concrete window: the unknown frame at offset 0 is
    skipped and scanning resumes at its declared length. -/
theorem C1_witness :
    decodeFrameAt c1Window 0 = (none, (0 : ℤ) + readI16 c1Window (0 + 2)) ∧
    scanWindow c1Window 0 (42 + 1) =
      scanWindow c1Window ((0 : ℤ) + readI16 c1Window (0 + 2)).toNat 42 :=
  ⟨(C1_unknown_frame_skipped c1Window 0 42 (by decide) (by decide)).1,
    (C1_unknown_frame_skipped c1Window 0 42 (by decide) (by decide)).2
      (by decide) (by decide)⟩

/-- C2 fails as stated: canonical prices are Python binary64 floats, not
    exact scaled rationals.  The distinct wire integers 10^17 and 10^17 + 1
    decode to type-0 frames whose canonical price keys are both exactly the
    double 10^9 (the quotient (10^17 + 1) / 10^8 = 10^9 + 10^-8 is less
    than half an ulp above 10^9), so two distinct scaled integers map to
    the same canonical price, and the second decoded price differs from its
    exact quotient. -/
theorem C2_counterexample :
    (100000000000000000 : ℤ) ≠ 100000000000000001 ∧
    windowMessages c2Window =
      [.depth 0 29 0 100000000000000000 100000000 1,
       .depth 0 29 0 100000000000000001 100000000 1] ∧
    (HBook.update emptyHBook 100000000000000000 100000000 1).bids = [(1000000000, 1)] ∧
    (HBook.update emptyHBook 100000000000000001 100000000 1).bids = [(1000000000, 1)] ∧
    ((100000000000000001 : ℚ) / 10 ^ 8 ≠ 1000000000) := by
  refine ⟨by decide, by decide, ?_, ?_, by norm_num⟩
  · unfold HBook.update
    dsimp only
    rw [if_neg (by norm_num : ¬((1 : ℕ) &&& 4 ≠ 0))]
    rw [if_pos (by norm_num : (1 : ℕ) &&& 1 ≠ 0)]
    rw [if_pos (by norm_num : (100000000 : ℤ) > 0)]
    have e1 : ((100000000000000000 : ℤ) : ℚ) = 100000000000000000 := by norm_num
    have e2 : ((100000000 : ℤ) : ℚ) = 100000000 := by norm_num
    rw [e1, e2, fl_billion, fl_one]
    simp [emptyHBook, dinsert]
  · unfold HBook.update
    dsimp only
    rw [if_neg (by norm_num : ¬((1 : ℕ) &&& 4 ≠ 0))]
    rw [if_pos (by norm_num : (1 : ℕ) &&& 1 ≠ 0)]
    rw [if_pos (by norm_num : (100000000 : ℤ) > 0)]
    have e1 : ((100000000000000001 : ℤ) : ℚ) = 100000000000000001 := by norm_num
    have e2 : ((100000000 : ℤ) : ℚ) = 100000000 := by norm_num
    rw [e1, e2, fl_billion_plus, fl_one]
    simp [emptyHBook, dinsert]

/-- C2 amended: decoded type-0 and type-1 prices and volumes are the
    binary64 doubles nearest to the wire integer divided by 10^8 (Python
    float division), not exact rationals in general; when the quotients are
    exactly representable the decode does round-trip exactly.  For the
    hand-constructed buffer with one type-0 frame (price 100.0, volume 2.5,
    bid) and one type-1 frame (price 5.0, volume 1.0), decoding yields
    exactly those two messages and the canonical values are exact. -/
theorem C2_roundtrip_exact_when_representable :
    windowMessages rtWindow =
      [.depth 0 29 5 10000000000 250000000 1,
       .trade 1 37 6 500000000 100000000 99 0] ∧
    (HBook.update emptyHBook 10000000000 250000000 1).bids = [(100, 5 / 2)] ∧
    (HBook.update emptyHBook 10000000000 250000000 1).asks = [] ∧
    TradeProcessor.update [] 6 500000000 100000000 = [(6, 5, 1)] := by
  refine ⟨by decide, ?_, ?_, ?_⟩
  · unfold HBook.update
    dsimp only
    rw [if_neg (by norm_num : ¬((1 : ℕ) &&& 4 ≠ 0))]
    rw [if_pos (by norm_num : (1 : ℕ) &&& 1 ≠ 0)]
    rw [if_pos (by norm_num : (250000000 : ℤ) > 0)]
    have e1 : ((10000000000 : ℤ) : ℚ) = 10000000000 := by norm_num
    have e2 : ((250000000 : ℤ) : ℚ) = 250000000 := by norm_num
    rw [e1, e2, fl_hundred, fl_two_half]
    simp [emptyHBook, dinsert]
  · unfold HBook.update
    dsimp only
    rw [if_neg (by norm_num : ¬((1 : ℕ) &&& 4 ≠ 0))]
    rw [if_pos (by norm_num : (1 : ℕ) &&& 1 ≠ 0)]
    rfl
  · unfold TradeProcessor.update
    have e1 : ((500000000 : ℤ) : ℚ) = 500000000 := by norm_num
    have e2 : ((100000000 : ℤ) : ℚ) = 100000000 := by norm_num
    rw [e1, e2, fl_five, fl_one]
    rfl

/- Auxiliary lemmas for the live message handler. -/

/-- Fully populated entries never raise in update_items. -/
theorem update_itemsE_ok (l : List JItemR)
    (hall : l.all (fun it => it.price.isSome && it.volume.isSome) = true) :
    ∀ items : List (ℚ × ℚ), (update_itemsE items l).2 = false := by
  induction l with
  | nil => intro items; rfl
  | cons it rest ih =>
    intro items
    rw [List.all_cons, Bool.and_eq_true] at hall
    obtain ⟨hit, hrest⟩ := hall
    rw [Bool.and_eq_true] at hit
    obtain ⟨p, hp⟩ := Option.isSome_iff_exists.mp hit.1
    obtain ⟨v, hv⟩ := Option.isSome_iff_exists.mp hit.2
    unfold update_itemsE
    rw [hp, hv]
    exact ih hrest _

/-- A fully populated MarketDepth payload never raises in update. -/
theorem updateE_ok (b : LBook) (md : MDRaw) (hfull : mdFull md = true) :
    (b.updateE md).2 = false := by
  unfold mdFull at hfull
  rw [Bool.and_eq_true, Bool.and_eq_true, Bool.and_eq_true] at hfull
  obtain ⟨⟨⟨hsym, hupd⟩, hbids⟩, hasks⟩ := hfull
  obtain ⟨u, hu⟩ := Option.isSome_iff_exists.mp hupd
  cases hb : md.bids with
  | none => rw [hb] at hbids; cases hbids
  | some bl =>
    cases ha : md.asks with
    | none => rw [ha] at hasks; cases hasks
    | some al =>
      rw [hb] at hbids
      rw [ha] at hasks
      unfold LBook.updateE
      rw [hu, hb, ha]
      dsimp only
      rw [update_itemsE_ok bl hbids]
      rw [if_neg (by simp : ¬(false = true))]
      dsimp only
      exact update_itemsE_ok al hasks _

/-- C3 fails as stated: (a) a string that is not parseable JSON makes
    json.loads raise, and the exception escapes on_message (second
    conjunct: the error flag is set, though the registry is unchanged);
    (b) a recognized MarketDepth payload with IsUpdate present and false
    but with no Bids key clears the book for its symbol *before* the
    KeyError escapes — so the state IS changed by the bad message. -/
theorem C3_counterexample :
    on_message [("X", LBook.mk [(5, 5)] [(6, 1)])]
      (some (.md ⟨some "X", some false, none, none⟩)) =
      ([("X", LBook.mk [] [])], true) ∧
    ([("X", LBook.mk [] [])] : List (String × LBook)) ≠
      [("X", LBook.mk [(5, 5)] [(6, 1)])] ∧
    on_message [("X", LBook.mk [(5, 5)] [(6, 1)])] none =
      ([("X", LBook.mk [(5, 5)] [(6, 1)])], true) := by decide

/-- C3 amended: a malformed message makes the exception escape on_message
    to its caller (the websocket library's callback wrapper); for input
    that is not parseable JSON the registry is unchanged; a recognized
    MarketDepth payload missing expected fields may leave a partial effect
    behind (see the counterexample: the clear precedes the KeyError); and
    every fully populated MarketDepth payload — in particular the next
    well-formed message after a failure — is processed with no exception,
    as are PublicTrade/Symbols/unrecognized messages. -/
theorem C3_malformed_isolated_to_message :
    (∀ depths : List (String × LBook), on_message depths none = (depths, true)) ∧
    (∀ (depths : List (String × LBook)) (md : MDRaw), mdFull md = true →
      (on_message depths (some (.md md))).2 = false) ∧
    (∀ depths : List (String × LBook),
      (on_message depths (some .publicTrade)).2 = false ∧
      (on_message depths (some .symbols)).2 = false ∧
      (on_message depths (some .other)).2 = false) := by
  refine ⟨fun depths => rfl, ?_, fun depths => ⟨rfl, rfl, rfl⟩⟩
  intro depths md hfull
  have hsym : md.symbol.isSome = true := by
    unfold mdFull at hfull
    rw [Bool.and_eq_true, Bool.and_eq_true, Bool.and_eq_true] at hfull
    exact hfull.1.1.1
  obtain ⟨sym, hs⟩ := Option.isSome_iff_exists.mp hsym
  unfold on_message
  dsimp only
  rw [hs]
  dsimp only
  exact updateE_ok _ md hfull

/-- Witness for C3: the parse failure propagates with no state change, and
    a concrete fully populated payload is processed with no exception. -/
theorem C3_witness :
    on_message [] none = ([], true) ∧
    (on_message [] (some (.md ⟨some "Z", some true, some [⟨some 3, some 4⟩], some []⟩))).2 =
      false :=
  ⟨C3_malformed_isolated_to_message.1 [],
    C3_malformed_isolated_to_message.2.1 []
      ⟨some "Z", some true, some [⟨some 3, some 4⟩], some []⟩ (by decide)⟩
